import Mathlib

/-!
Shallow embedding of the aether relay (src/server.py) and its SSE client
(src/sse_client.py), with theorems checking the specification claims.

Server state is the three module-level dicts of server.py, modelled as
association lists (Python dicts are insertion ordered: assignment to an
existing key replaces in place, a new key is appended at the end).
Timestamps (time.time) are modelled as integers.
-/

namespace Aether

/-- Python/JSON values, as far as the relay inspects them.  Truthiness of
these values is what `if not sender_id or not content` tests. -/
inductive PyVal where
  | null
  | bool (b : Bool)
  | int (n : Int)
  | str (s : String)
  | list (xs : List PyVal)
  | dict (fields : List (String × PyVal))

/-- Python truthiness: None, False, 0, empty string, empty list and empty
dict are falsy; everything else is truthy. -/
def truthy : PyVal → Bool
  | .null => false
  | .bool b => b
  | .int n => n != 0
  | .str s => s != ""
  | .list xs => !xs.isEmpty
  | .dict fs => !fs.isEmpty

/-- The broadcast message built in send_message: keys type, from, content,
timestamp ("type" and "from" are Lean keywords, hence mtype / mfrom). -/
structure Message where
  mtype : String
  mfrom : String
  content : PyVal
  timestamp : Int

/-- A live SSE connection: an opaque identity plus the log of frames the
server has written to it. -/
structure Conn where
  cid : Nat
  received : List Message

/-- Association-list lookup, first entry with the key wins (Python dicts
have unique keys, so this is dict access). -/
def alookup {α : Type} (l : List (String × α)) (k : String) : Option α :=
  match l with
  | [] => Option.none
  | (k1, v) :: rest => if k1 = k then some v else alookup rest k

/-- Apply f to the value stored at key k, leaving the list unchanged when
the key is absent (sse_connections.get(agent_id, set()) semantics). -/
def adjust {α : Type} (l : List (String × α)) (k : String) (f : α → α) :
    List (String × α) :=
  match l with
  | [] => []
  | (k1, v) :: rest =>
    if k1 = k then (k1, f v) :: adjust rest k f
    else (k1, v) :: adjust rest k f

/-- Python dict assignment d[k] = v: replace in place when k is present,
append at the end otherwise. -/
def upsert {α : Type} (l : List (String × α)) (k : String) (v : α) :
    List (String × α) :=
  if (alookup l k).isSome then adjust l k (fun _ => v) else l ++ [(k, v)]

/-- The key list of an association list (d.keys()). -/
def keys {α : Type} (l : List (String × α)) : List String :=
  l.map Prod.fst

/-- Drop every entry whose key is listed in ks (the per-agent deletions of
cleanup_inactive_agents). -/
def removeKeys {α : Type} (l : List (String × α)) (ks : List String) :
    List (String × α) :=
  match l with
  | [] => []
  | (k1, v) :: rest =>
    if k1 ∈ ks then removeKeys rest ks else (k1, v) :: removeKeys rest ks

/-- The three module-level dicts of server.py. -/
structure ServerState where
  message_queues : List (String × List Message)
  sse_connections : List (String × List Conn)
  agent_last_seen : List (String × Int)

/-- Body of POST /register: data.get('agent_id'), absent key modelled as
none (the relay only ever sees string ids here). -/
structure RegisterRequest where
  agent_id : Option String

/-- Body of POST /send: data.get('sender_id') and data.get('content'). -/
structure SendRequest where
  sender_id : Option String
  content : Option PyVal

/-- register_agent (server.py): 400 when agent_id is missing or falsy;
otherwise create queue and connection-set entries when the id is new, then
stamp agent_last_seen.  Returns (HTTP status, new state). -/
def register_agent (now : Int) (req : RegisterRequest) (st : ServerState) :
    Nat × ServerState :=
  match req.agent_id with
  | Option.none => (400, st)
  | some aid =>
    if aid = "" then (400, st)
    else
      let st1 :=
        if (alookup st.message_queues aid).isSome then st
        else { st with
               message_queues := st.message_queues ++ [(aid, [])],
               sse_connections := st.sse_connections ++ [(aid, [])] }
      (200, { st1 with agent_last_seen := upsert st1.agent_last_seen aid now })

/-- mkMessage: the dict literal built in send_message. -/
def mkMessage (sender_id : String) (content : PyVal) (now : Int) : Message :=
  { mtype := "message", mfrom := sender_id, content := content, timestamp := now }

/-- connection.write of one data frame: the message is appended to the log
of frames this connection has received. -/
def pushMsg (msg : Message) (c : Conn) : Conn :=
  { c with received := c.received ++ [msg] }

/-- One iteration of the fan-out loop of send_message for one agent_id from
message_queues.keys(): skip the sender; otherwise append the message to
that queue and write it to every live connection of that agent. -/
def broadcastStep (sid : String) (msg : Message) (st : ServerState)
    (aid : String) : ServerState :=
  if aid = sid then st
  else
    { st with
      message_queues := adjust st.message_queues aid (fun q => q ++ [msg]),
      sse_connections := adjust st.sse_connections aid
        (fun cs => cs.map (pushMsg msg)) }

/-- send_message (server.py): 400 when sender_id or content is missing or
falsy; otherwise stamp the sender in agent_last_seen, build the message,
and fan it out over message_queues.keys(). -/
def send_message (now : Int) (req : SendRequest) (st : ServerState) :
    Nat × ServerState :=
  match req.sender_id, req.content with
  | some sid, some c =>
    if sid = "" || !truthy c then (400, st)
    else
      let st1 := { st with agent_last_seen := upsert st.agent_last_seen sid now }
      let msg := mkMessage sid c now
      (200, (keys st1.message_queues).foldl (broadcastStep sid msg) st1)
  | _, _ => (400, st)

/-- The attach-and-drain step of the events handler (server.py): ensure the
record exists, stamp agent_last_seen, add a fresh connection, write every
queued message to it, then clear the queue. -/
def events_attach (now : Int) (aid : String) (cid : Nat) (st : ServerState) :
    ServerState :=
  let st1 :=
    if (alookup st.message_queues aid).isSome then st
    else { st with
           message_queues := st.message_queues ++ [(aid, [])],
           sse_connections := st.sse_connections ++ [(aid, [])] }
  let st2 := { st1 with agent_last_seen := upsert st1.agent_last_seen aid now }
  let queued := (alookup st2.message_queues aid).getD []
  { st2 with
    sse_connections := adjust st2.sse_connections aid
      (fun cs => cs ++ [{ cid := cid, received := queued }]),
    message_queues := upsert st2.message_queues aid [] }

/-- One keepalive tick of the events loop: write a ping frame and stamp
agent_last_seen (the frame itself carries no message, so only the
timestamp matters to the state). -/
def events_keepalive (now : Int) (aid : String) (st : ServerState) :
    ServerState :=
  { st with agent_last_seen := upsert st.agent_last_seen aid now }

/-- cleanup_inactive_agents (server.py, max_idle_time = 300): collect the
ids with now - last_seen > 300, then for each delete its queue, force-close
and delete its connections, and delete its timestamp.  Returns the new
state and the cids of the force-closed connections. -/
def cleanup_inactive_agents (now : Int) (st : ServerState) :
    ServerState × List Nat :=
  let inactive := keys (st.agent_last_seen.filter (fun p => 300 < now - p.2))
  let closed := (st.sse_connections.filter (fun p => decide (p.1 ∈ inactive))).flatMap
    (fun p => p.2.map Conn.cid)
  ({ message_queues := removeKeys st.message_queues inactive,
     sse_connections := removeKeys st.sse_connections inactive,
     agent_last_seen := removeKeys st.agent_last_seen inactive }, closed)

/-- list_agents (server.py): run one opportunistic sweep, then return
message_queues.keys(). -/
def list_agents (now : Int) (st : ServerState) : List String × ServerState :=
  let st1 := (cleanup_inactive_agents now st).1
  (keys st1.message_queues, st1)

/-! ## Client transport (src/sse_client.py) -/

/-- Outcome of one pass of the while-True loop in _listen_for_events: fail
covers both a non-200 open and a raised stream error (both sleep the
current reconnect_delay and then double it, capped); success is a 200 open,
which resets reconnect_delay to 1 before reading the stream. -/
inductive AttemptOutcome where
  | fail
  | success

/-- reconnect_delay = min(reconnect_delay * 2, max_reconnect_delay) with
max_reconnect_delay = 60. -/
def nextDelay (d : Nat) : Nat := min (d * 2) 60

/-- The sequence of waits (asyncio.sleep arguments) produced by a run of
loop outcomes, starting from the current reconnect_delay d: a failure
sleeps d and doubles it capped at 60; a success resets the delay to 1 and
sleeps nothing. -/
def backoffWaits (d : Nat) : List AttemptOutcome → List Nat
  | [] => []
  | AttemptOutcome.fail :: rest => d :: backoffWaits (nextDelay d) rest
  | AttemptOutcome.success :: rest => backoffWaits 1 rest

/-- A Python str, modelled as its character sequence. -/
abbrev PyStr := List Char

/-- str.startswith: the second argument is a character-wise leading part of
the first. -/
def pyStartsWith : PyStr → PyStr → Bool
  | _, [] => true
  | [], _ :: _ => false
  | c :: s1, c1 :: p1 => c = c1 && pyStartsWith s1 p1

/-- str.strip(): whitespace removed from both ends. -/
def pyStrip (s : PyStr) : PyStr :=
  ((s.dropWhile Char.isWhitespace).reverse.dropWhile Char.isWhitespace).reverse

/-- _process_sse_event followed by the dispatch loop, for the payload of one
data line: an empty or all-whitespace payload returns at once; a payload
that decodes is handed to every registered handler in declaration order; a
payload that fails to decode is logged and produces no calls (the except
clause makes the function total, so the caller keeps reading).  Handlers
are opaque ids; the result is the list of (handler, value) calls made.  The
JSON decoder is a parameter: the transport only branches on whether it
succeeds. -/
def processSseEvent (decode : PyStr → Option PyVal) (handlers : List Nat)
    (event : PyStr) : List (Nat × PyVal) :=
  if event.isEmpty || (pyStrip event).isEmpty then []
  else
    match decode event with
    | some v => handlers.map (fun h => (h, v))
    | Option.none => []

/-- Line classification in _listen_for_events: a line starting with the
keepalive marker is skipped; a line starting with the data marker has the
six marker characters dropped, the rest stripped and passed to
processSseEvent; any other line is ignored. -/
def processLine (decode : PyStr → Option PyVal) (handlers : List Nat)
    (line : PyStr) : List (Nat × PyVal) :=
  if pyStartsWith line (": ping").data then []
  else if pyStartsWith line ("data: ").data then
    processSseEvent decode handlers (pyStrip (line.drop 6))
  else []

/-- The reading loop over a finite chunk of the stream: the calls made for
each line in order.  flatMap is faithful because processSseEvent never
raises (its except clauses catch and log), so the async-for always advances
to the next line. -/
def processLines (decode : PyStr → Option PyVal) (handlers : List Nat)
    (lines : List PyStr) : List (Nat × PyVal) :=
  lines.flatMap (processLine decode handlers)

/-- A concrete decoder instance for exercising the dispatch path: decodes
the one-character payload 7 and rejects everything else. -/
def sampleDecode : PyStr → Option PyVal :=
  fun s => if s = ['7'] then some (PyVal.int 7) else Option.none

/-- A sequence of POST /register calls for the same id at the given times
(the fold applies register_agent and keeps the resulting state). -/
def registerSeq (id : String) (ts : List Int) (st : ServerState) : ServerState :=
  ts.foldl (fun s t => (register_agent t { agent_id := some id } s).2) st

/-- The state-mutating requests of the relay, used to speak about whole
execution traces: register, send, the attach-and-drain of a new events
stream, one keepalive tick of an open stream, and one idle sweep (the
reaper tick or the sweep run by list_agents). -/
inductive Op where
  | register (req : RegisterRequest)
  | send (req : SendRequest)
  | attach (aid : String) (cid : Nat)
  | keepalive (aid : String)
  | sweep

/-- The state transition of one operation executed at time now. -/
def step (now : Int) (op : Op) (st : ServerState) : ServerState :=
  match op with
  | Op.register req => (register_agent now req st).2
  | Op.send req => (send_message now req st).2
  | Op.attach aid cid => events_attach now aid cid st
  | Op.keepalive aid => events_keepalive now aid st
  | Op.sweep => (cleanup_inactive_agents now st).1

/-- Run a trace of timestamped operations. -/
def run (st : ServerState) : List (Int × Op) → ServerState
  | [] => st
  | (t, op) :: rest => run (step t op st) rest

/-- The clock is non-decreasing along the trace and starts no earlier
than t0. -/
def chron : Int → List (Int × Op) → Prop
  | _, [] => True
  | t0, (t, _) :: rest => t0 ≤ t ∧ chron t rest

/-- Every stored lastSeen timestamp is at most t (all writes are of past
clock readings). -/
def boundedBy (st : ServerState) (t : Int) : Prop :=
  ∀ p ∈ st.agent_last_seen, p.2 ≤ t

/-! ## Association-list lemmas -/

theorem alookup_adjust_self {α : Type} (l : List (String × α)) (k : String)
    (f : α → α) : alookup (adjust l k f) k = (alookup l k).map f := by
  induction l with
  | nil => rfl
  | cons p rest ih =>
    obtain ⟨k1, v⟩ := p
    by_cases h : k1 = k
    · simp [adjust, alookup, h]
    · simp [adjust, alookup, h, ih]

theorem alookup_adjust_ne {α : Type} (l : List (String × α)) (k j : String)
    (f : α → α) (hne : j ≠ k) : alookup (adjust l k f) j = alookup l j := by
  induction l with
  | nil => rfl
  | cons p rest ih =>
    obtain ⟨k1, v⟩ := p
    by_cases h : k1 = k
    · have h2 : ¬ k1 = j := fun hh => hne (hh ▸ h)
      have h3 : ¬ k = j := fun hh => hne hh.symm
      simp [adjust, alookup, h, h2, h3, ih]
    · by_cases h2 : k1 = j <;> simp [adjust, alookup, h, h2, hne, ih]

theorem alookup_append_of_eq_none {α : Type} (l1 l2 : List (String × α))
    (k : String) (h : alookup l1 k = Option.none) :
    alookup (l1 ++ l2) k = alookup l2 k := by
  induction l1 with
  | nil => rfl
  | cons p rest ih =>
    obtain ⟨k1, v⟩ := p
    by_cases hh : k1 = k
    · simp [alookup, hh] at h
    · simp [alookup, hh] at h ⊢
      exact ih h

theorem alookup_append_single_ne {α : Type} (l : List (String × α))
    (k j : String) (v : α) (hne : j ≠ k) :
    alookup (l ++ [(k, v)]) j = alookup l j := by
  induction l with
  | nil =>
    have hne2 : ¬ k = j := fun hh => hne hh.symm
    simp [alookup, hne2]
  | cons p rest ih =>
    obtain ⟨k1, v1⟩ := p
    by_cases hh : k1 = j <;> simp [alookup, hh, ih]

theorem alookup_upsert_self {α : Type} (l : List (String × α)) (k : String)
    (v : α) : alookup (upsert l k v) k = some v := by
  unfold upsert
  by_cases h : (alookup l k).isSome
  · rw [if_pos h, alookup_adjust_self]
    obtain ⟨w, hw⟩ := Option.isSome_iff_exists.mp h
    simp [hw]
  · rw [if_neg h, alookup_append_of_eq_none]
    · simp [alookup]
    · exact Option.not_isSome_iff_eq_none.mp h

theorem alookup_upsert_ne {α : Type} (l : List (String × α)) (k j : String)
    (v : α) (hne : j ≠ k) : alookup (upsert l k v) j = alookup l j := by
  unfold upsert
  by_cases h : (alookup l k).isSome
  · rw [if_pos h, alookup_adjust_ne _ _ _ _ hne]
  · rw [if_neg h, alookup_append_single_ne _ _ _ _ hne]

theorem mem_keys_iff_isSome {α : Type} (l : List (String × α)) (k : String) :
    k ∈ keys l ↔ (alookup l k).isSome := by
  induction l with
  | nil => simp [keys, alookup]
  | cons p rest ih =>
    obtain ⟨k1, v⟩ := p
    by_cases h : k1 = k
    · simp [keys, alookup, h]
    · have h2 : ¬ k = k1 := fun hh => h hh.symm
      simp [keys, alookup, h, h2] at ih ⊢
      exact ih

theorem keys_adjust {α : Type} (l : List (String × α)) (k : String)
    (f : α → α) : keys (adjust l k f) = keys l := by
  induction l with
  | nil => rfl
  | cons p rest ih =>
    obtain ⟨k1, v⟩ := p
    by_cases h : k1 = k <;> simp [adjust, keys, h, ih] <;> simp [keys] at ih <;>
      exact ih

theorem keys_upsert_present {α : Type} (l : List (String × α)) (k : String)
    (v : α) (h : (alookup l k).isSome) : keys (upsert l k v) = keys l := by
  unfold upsert
  rw [if_pos h, keys_adjust]

theorem alookup_removeKeys_mem {α : Type} (l : List (String × α))
    (ks : List String) (j : String) (h : j ∈ ks) :
    alookup (removeKeys l ks) j = Option.none := by
  induction l with
  | nil => rfl
  | cons p rest ih =>
    obtain ⟨k1, v⟩ := p
    by_cases hk : k1 ∈ ks
    · simpa [removeKeys, hk] using ih
    · have hne : ¬ k1 = j := fun he => hk (he ▸ h)
      simpa [removeKeys, hk, alookup, hne] using ih

theorem alookup_removeKeys_not_mem {α : Type} (l : List (String × α))
    (ks : List String) (j : String) (h : j ∉ ks) :
    alookup (removeKeys l ks) j = alookup l j := by
  induction l with
  | nil => rfl
  | cons p rest ih =>
    obtain ⟨k1, v⟩ := p
    by_cases hk : k1 ∈ ks
    · have hne : ¬ k1 = j := fun he => h (he ▸ hk)
      simpa [removeKeys, hk, alookup, hne] using ih
    · by_cases he : k1 = j <;> simp [removeKeys, hk, alookup, he, h, ih]

/-! ## Backoff lemmas -/

theorem backoffWaits_replicate_fail (d : Nat) (k : Nat) :
    backoffWaits d (List.replicate k AttemptOutcome.fail)
      = (List.range k).map (fun i => nextDelay^[i] d) := by
  induction k generalizing d with
  | zero => rfl
  | succ n ih =>
    rw [List.replicate_succ, List.range_succ_eq_map]
    simp only [backoffWaits, ih (nextDelay d), List.map_cons, List.map_map]
    refine congrArg₂ _ rfl ?_
    refine List.map_congr_left (fun i _ => ?_)
    simp [Function.comp, Function.iterate_succ_apply]

theorem iterate_nextDelay_one (i : Nat) : nextDelay^[i] 1 = min (2 ^ i) 60 := by
  induction i with
  | zero => simp
  | succ n ih =>
    rw [Function.iterate_succ_apply', ih, nextDelay, pow_succ]
    have h1 : 1 ≤ 2 ^ n := Nat.one_le_two_pow
    omega

theorem backoffWaits_success_split (d : Nat) (outs rest : List AttemptOutcome) :
    backoffWaits d (outs ++ AttemptOutcome.success :: rest)
      = backoffWaits d outs ++ backoffWaits 1 rest := by
  induction outs generalizing d with
  | nil => rfl
  | cons o outs ih =>
    cases o <;> simp [backoffWaits, ih]

/-! ## Claim C4: reconnect backoff 1,2,4,...,60 capped, reset on success -/

/-- C4: starting from a fresh reconnect_delay of 1, the waits before the
successive reconnect attempts of _listen_for_events after k consecutive
failures are min(2^i, 60) for i = 0,..,k-1, i.e. 1,2,4,8,16,32,60,60,...;
the waits are monotonically non-decreasing and capped at 60; and any run
containing a successful connection continues afterwards exactly as a fresh
run with the delay reset to 1. -/
theorem C4_backoff_sequence (k : Nat) (outs rest : List AttemptOutcome) :
    backoffWaits 1 (List.replicate k AttemptOutcome.fail)
      = (List.range k).map (fun i => min (2 ^ i) 60)
    ∧ List.Pairwise (· ≤ ·) (backoffWaits 1 (List.replicate k AttemptOutcome.fail))
    ∧ (∀ w ∈ backoffWaits 1 (List.replicate k AttemptOutcome.fail), w ≤ 60)
    ∧ backoffWaits 1 (outs ++ AttemptOutcome.success :: rest)
      = backoffWaits 1 outs ++ backoffWaits 1 rest := by
  have hform : backoffWaits 1 (List.replicate k AttemptOutcome.fail)
      = (List.range k).map (fun i => min (2 ^ i) 60) := by
    rw [backoffWaits_replicate_fail]
    exact List.map_congr_left (fun i _ => iterate_nextDelay_one i)
  refine ⟨hform, ?_, ?_, backoffWaits_success_split 1 outs rest⟩
  · rw [hform]
    refine List.Pairwise.map _ (fun i j hij => ?_) (List.pairwise_lt_range k)
    have h2 : 2 ^ i ≤ 2 ^ j := Nat.pow_le_pow_right (by norm_num) (Nat.le_of_lt hij)
    omega
  · rw [hform]
    intro w hw
    simp only [List.mem_map] at hw
    obtain ⟨i, _, hi⟩ := hw
    omega

/-! ## Claim C6: missing fields give 400 and mutate nothing -/

/-- C6: a send request missing sender_id or missing content returns 400
with the server state exactly unchanged (no lastSeen write, no message
constructed, no queue or connection touched), and a register request
missing agent_id likewise returns 400 and mutates nothing. -/
theorem C6_missing_field_no_mutation (now : Int) (st : ServerState)
    (c : Option PyVal) (s : Option String) :
    send_message now { sender_id := Option.none, content := c } st = (400, st)
    ∧ send_message now { sender_id := s, content := Option.none } st = (400, st)
    ∧ register_agent now { agent_id := Option.none } st = (400, st) := by
  refine ⟨rfl, ?_, rfl⟩
  cases s <;> rfl

/-! ## Claim C9: presence is tested by truthiness, not key existence -/

/-- C9: a send request whose content is present but falsy (empty dict,
empty string, zero, false) is rejected exactly like a request with the
field absent: 400 and no state change; so a registered agent cannot
broadcast an empty content payload. -/
theorem C9_falsy_content_rejected (now : Int) (st : ServerState)
    (sid : String) (c : PyVal) (hc : truthy c = false) :
    send_message now { sender_id := some sid, content := some c } st
      = send_message now { sender_id := some sid, content := Option.none } st
    ∧ send_message now { sender_id := some sid, content := some c } st
      = (400, st) := by
  constructor
  · simp [send_message, hc]
  · simp [send_message, hc]

/-- Witness for C9 at the four falsy shapes named by the claim, for sender
"1001" on the empty server state. -/
theorem C9_falsy_content_rejected_witness :
    send_message 5 { sender_id := some "1001", content := some (PyVal.dict []) }
        { message_queues := [], sse_connections := [], agent_last_seen := [] }
      = (400, { message_queues := [], sse_connections := [], agent_last_seen := [] })
    ∧ send_message 5 { sender_id := some "1001", content := some (PyVal.str "") }
        { message_queues := [], sse_connections := [], agent_last_seen := [] }
      = (400, { message_queues := [], sse_connections := [], agent_last_seen := [] })
    ∧ send_message 5 { sender_id := some "1001", content := some (PyVal.int 0) }
        { message_queues := [], sse_connections := [], agent_last_seen := [] }
      = (400, { message_queues := [], sse_connections := [], agent_last_seen := [] })
    ∧ send_message 5 { sender_id := some "1001", content := some (PyVal.bool false) }
        { message_queues := [], sse_connections := [], agent_last_seen := [] }
      = (400, { message_queues := [], sse_connections := [], agent_last_seen := [] }) :=
  ⟨(C9_falsy_content_rejected 5 _ "1001" (PyVal.dict []) rfl).2,
   (C9_falsy_content_rejected 5 _ "1001" (PyVal.str "") rfl).2,
   (C9_falsy_content_rejected 5 _ "1001" (PyVal.int 0) rfl).2,
   (C9_falsy_content_rejected 5 _ "1001" (PyVal.bool false) rfl).2⟩

/-! ## Fan-out lemmas for send_message -/

theorem foldl_broadcast_lastSeen (sid : String) (msg : Message)
    (ks : List String) (st : ServerState) :
    (ks.foldl (broadcastStep sid msg) st).agent_last_seen
      = st.agent_last_seen := by
  induction ks generalizing st with
  | nil => rfl
  | cons b ks ih =>
    rw [List.foldl_cons, ih]
    unfold broadcastStep
    by_cases h : b = sid <;> simp [h]

theorem foldl_broadcast_sender_queues (sid : String) (msg : Message)
    (ks : List String) (st : ServerState) :
    alookup (ks.foldl (broadcastStep sid msg) st).message_queues sid
      = alookup st.message_queues sid := by
  induction ks generalizing st with
  | nil => rfl
  | cons b ks ih =>
    rw [List.foldl_cons, ih]
    unfold broadcastStep
    by_cases h : b = sid
    · simp [h]
    · have hne : sid ≠ b := fun hh => h hh.symm
      simp [h, alookup_adjust_ne _ _ _ _ hne]

theorem foldl_broadcast_sender_conns (sid : String) (msg : Message)
    (ks : List String) (st : ServerState) :
    alookup (ks.foldl (broadcastStep sid msg) st).sse_connections sid
      = alookup st.sse_connections sid := by
  induction ks generalizing st with
  | nil => rfl
  | cons b ks ih =>
    rw [List.foldl_cons, ih]
    unfold broadcastStep
    by_cases h : b = sid
    · simp [h]
    · have hne : sid ≠ b := fun hh => h hh.symm
      simp [h, alookup_adjust_ne _ _ _ _ hne]

theorem foldl_broadcast_not_mem (sid : String) (msg : Message)
    (ks : List String) (st : ServerState) (aid : String) (h : aid ∉ ks) :
    alookup (ks.foldl (broadcastStep sid msg) st).message_queues aid
      = alookup st.message_queues aid
    ∧ alookup (ks.foldl (broadcastStep sid msg) st).sse_connections aid
      = alookup st.sse_connections aid := by
  induction ks generalizing st with
  | nil => exact ⟨rfl, rfl⟩
  | cons b ks ih =>
    have hb : aid ≠ b := fun hh => h (hh ▸ List.mem_cons_self b ks)
    have hks : aid ∉ ks := fun hh => h (List.mem_cons_of_mem b hh)
    rw [List.foldl_cons]
    refine ⟨((ih _ hks).1).trans ?_, ((ih _ hks).2).trans ?_⟩ <;>
      unfold broadcastStep <;> by_cases hsb : b = sid <;>
        simp [hsb, alookup_adjust_ne _ _ _ _ hb]

theorem foldl_broadcast_recipient (sid : String) (msg : Message)
    (ks : List String) (st : ServerState) (aid : String)
    (hne : aid ≠ sid) (hmem : aid ∈ ks) (hnd : ks.Nodup) :
    alookup (ks.foldl (broadcastStep sid msg) st).message_queues aid
      = (alookup st.message_queues aid).map (fun q => q ++ [msg])
    ∧ alookup (ks.foldl (broadcastStep sid msg) st).sse_connections aid
      = (alookup st.sse_connections aid).map (fun cs => cs.map (pushMsg msg)) := by
  induction ks generalizing st with
  | nil => cases hmem
  | cons b ks ih =>
    rw [List.foldl_cons]
    by_cases hb : b = aid
    · subst hb
      have hnot : b ∉ ks := (List.nodup_cons.mp hnd).1
      have hstep : (broadcastStep sid msg st b).message_queues
            = adjust st.message_queues b (fun q => q ++ [msg])
          ∧ (broadcastStep sid msg st b).sse_connections
            = adjust st.sse_connections b (fun cs => cs.map (pushMsg msg)) := by
        unfold broadcastStep
        simp [hne]
      refine ⟨((foldl_broadcast_not_mem sid msg ks _ b hnot).1).trans ?_,
              ((foldl_broadcast_not_mem sid msg ks _ b hnot).2).trans ?_⟩
      · rw [hstep.1, alookup_adjust_self]
      · rw [hstep.2, alookup_adjust_self]
    · have hmem2 : aid ∈ ks := by
        cases List.mem_cons.mp hmem with
        | inl hh => exact absurd hh.symm hb
        | inr hh => exact hh
      have hnd2 : ks.Nodup := (List.nodup_cons.mp hnd).2
      have hpre : alookup (broadcastStep sid msg st b).message_queues aid
            = alookup st.message_queues aid
          ∧ alookup (broadcastStep sid msg st b).sse_connections aid
            = alookup st.sse_connections aid := by
        have hab : aid ≠ b := fun hh => hb hh.symm
        unfold broadcastStep
        by_cases hsb : b = sid <;>
          simp [hsb, alookup_adjust_ne _ _ _ _ hab]
      refine ⟨((ih _ hmem2 hnd2).1).trans ?_, ((ih _ hmem2 hnd2).2).trans ?_⟩
      · rw [hpre.1]
      · rw [hpre.2]

theorem send_message_valid (now : Int) (st : ServerState) (sid : String)
    (c : PyVal) (hsid : sid ≠ "") (hc : truthy c = true) :
    send_message now { sender_id := some sid, content := some c } st
      = (200, (keys st.message_queues).foldl
          (broadcastStep sid (mkMessage sid c now))
          { st with agent_last_seen := upsert st.agent_last_seen sid now }) := by
  simp [send_message, hsid, hc]

/-! ## Claim C2: the sender is never a recipient of its own broadcast -/

/-- C2: a valid broadcast send(sid, c) returns 200, leaves the sender's own
queue and live connections exactly as they were (neither an append nor a
push), and attempts delivery to every other id in the registry: each such
id gets the message appended to its queue and written to every one of its
live connections. -/
theorem C2_sender_excluded (now : Int) (st : ServerState) (sid : String)
    (c : PyVal) (hsid : sid ≠ "") (hc : truthy c = true)
    (hnd : (keys st.message_queues).Nodup) :
    (send_message now { sender_id := some sid, content := some c } st).1 = 200
    ∧ alookup (send_message now { sender_id := some sid, content := some c }
        st).2.message_queues sid = alookup st.message_queues sid
    ∧ alookup (send_message now { sender_id := some sid, content := some c }
        st).2.sse_connections sid = alookup st.sse_connections sid
    ∧ (∀ aid q, aid ≠ sid → alookup st.message_queues aid = some q →
        alookup (send_message now { sender_id := some sid, content := some c }
          st).2.message_queues aid = some (q ++ [mkMessage sid c now]))
    ∧ (∀ aid cs, aid ≠ sid → (alookup st.message_queues aid).isSome →
        alookup st.sse_connections aid = some cs →
        alookup (send_message now { sender_id := some sid, content := some c }
          st).2.sse_connections aid
          = some (cs.map (pushMsg (mkMessage sid c now)))) := by
  rw [send_message_valid now st sid c hsid hc]
  set st1 : ServerState :=
    { st with agent_last_seen := upsert st.agent_last_seen sid now } with hst1
  have hq1 : st1.message_queues = st.message_queues := rfl
  have hc1 : st1.sse_connections = st.sse_connections := rfl
  refine ⟨rfl, ?_, ?_, ?_, ?_⟩
  · rw [foldl_broadcast_sender_queues, hq1]
  · rw [foldl_broadcast_sender_conns, hc1]
  · intro aid q hne hq
    have hmem : aid ∈ keys st.message_queues :=
      (mem_keys_iff_isSome _ _).mpr (by simp [hq])
    have := (foldl_broadcast_recipient sid (mkMessage sid c now)
      (keys st.message_queues) st1 aid hne hmem hnd).1
    rw [this, hq1, hq]
    rfl
  · intro aid cs hne hqs hcs
    have hmem : aid ∈ keys st.message_queues :=
      (mem_keys_iff_isSome _ _).mpr hqs
    have := (foldl_broadcast_recipient sid (mkMessage sid c now)
      (keys st.message_queues) st1 aid hne hmem hnd).2
    rw [this, hc1, hcs]
    rfl

/-- Witness for C2: send from "A" on a registry holding A, B and C, where B
has one live connection; B and C get the message, A does not. -/
theorem C2_sender_excluded_witness :
    (send_message 5 { sender_id := some "A", content := some (PyVal.str "hi") }
      { message_queues := [("A", []), ("B", []), ("C", [])],
        sse_connections := [("A", []), ("B", [{ cid := 7, received := [] }]), ("C", [])],
        agent_last_seen := [("A", 0), ("B", 0), ("C", 0)] }).1 = 200
    ∧ alookup (send_message 5 { sender_id := some "A", content := some (PyVal.str "hi") }
      { message_queues := [("A", []), ("B", []), ("C", [])],
        sse_connections := [("A", []), ("B", [{ cid := 7, received := [] }]), ("C", [])],
        agent_last_seen := [("A", 0), ("B", 0), ("C", 0)] }).2.message_queues "A"
      = some []
    ∧ alookup (send_message 5 { sender_id := some "A", content := some (PyVal.str "hi") }
      { message_queues := [("A", []), ("B", []), ("C", [])],
        sse_connections := [("A", []), ("B", [{ cid := 7, received := [] }]), ("C", [])],
        agent_last_seen := [("A", 0), ("B", 0), ("C", 0)] }).2.message_queues "B"
      = some ([] ++ [mkMessage "A" (PyVal.str "hi") 5])
    ∧ alookup (send_message 5 { sender_id := some "A", content := some (PyVal.str "hi") }
      { message_queues := [("A", []), ("B", []), ("C", [])],
        sse_connections := [("A", []), ("B", [{ cid := 7, received := [] }]), ("C", [])],
        agent_last_seen := [("A", 0), ("B", 0), ("C", 0)] }).2.sse_connections "B"
      = some ([{ cid := 7, received := [] }].map (pushMsg (mkMessage "A" (PyVal.str "hi") 5))) := by
  have h := C2_sender_excluded 5
    { message_queues := [("A", []), ("B", []), ("C", [])],
      sse_connections := [("A", []), ("B", [{ cid := 7, received := [] }]), ("C", [])],
      agent_last_seen := [("A", 0), ("B", 0), ("C", 0)] }
    "A" (PyVal.str "hi") (by decide) rfl (by decide)
  exact ⟨h.1, h.2.1.trans rfl, h.2.2.2.1 "B" [] (by decide) rfl,
    h.2.2.2.2 "B" [{ cid := 7, received := [] }] (by decide) rfl rfl⟩

theorem events_attach_present (now : Int) (aid : String) (cid : Nat)
    (st : ServerState) (q : List Message)
    (hq : alookup st.message_queues aid = some q) :
    alookup (events_attach now aid cid st).message_queues aid = some []
    ∧ alookup (events_attach now aid cid st).sse_connections aid
      = (alookup st.sse_connections aid).map
          (fun cs => cs ++ [{ cid := cid, received := q }]) := by
  unfold events_attach
  have hs : (alookup st.message_queues aid).isSome = true := by simp [hq]
  simp only [hs, if_true, hq]
  exact ⟨alookup_upsert_self _ _ _, by rw [alookup_adjust_self]; simp [hq]⟩

/-! ## Claim C1: queue-or-deliver (corrected: queue-and-deliver) -/

/-- C1 counterexample: agent B has one live connection when A broadcasts,
yet the message IS appended to B's pendingQueue (the claim says that with a
non-empty live set it is pushed only, never queued). -/
theorem C1_counterexample :
    alookup (ServerState.sse_connections
        { message_queues := [("A", []), ("B", [])],
          sse_connections := [("A", []), ("B", [{ cid := 0, received := [] }])],
          agent_last_seen := [("A", 0), ("B", 0)] }) "B"
      = some [{ cid := 0, received := [] }]
    ∧ (send_message 5 { sender_id := some "A", content := some (PyVal.str "hi") }
        { message_queues := [("A", []), ("B", [])],
          sse_connections := [("A", []), ("B", [{ cid := 0, received := [] }])],
          agent_last_seen := [("A", 0), ("B", 0)] }).1 = 200
    ∧ alookup (send_message 5 { sender_id := some "A", content := some (PyVal.str "hi") }
        { message_queues := [("A", []), ("B", [])],
          sse_connections := [("A", []), ("B", [{ cid := 0, received := [] }])],
          agent_last_seen := [("A", 0), ("B", 0)] }).2.message_queues "B"
      = some [mkMessage "A" (PyVal.str "hi") 5] :=
  ⟨rfl, rfl, rfl⟩

/-- C1 amended: send_message appends the broadcast message to every
recipient's pendingQueue unconditionally — whether or not the recipient
has live connections — and additionally writes it to every live connection
the recipient has; consequently a recipient that was live at broadcast time
receives the message once on each live connection immediately and again
when a later subscribe drains the queue (the attach-and-drain hands the
fresh connection the queued copy and only then clears the queue). -/
theorem C1_amended_queue_and_deliver (now t : Int) (st : ServerState)
    (sid : String) (c : PyVal) (aid : String) (q : List Message)
    (cs : List Conn) (cid : Nat)
    (hsid : sid ≠ "") (hc : truthy c = true)
    (hnd : (keys st.message_queues).Nodup) (hne : aid ≠ sid)
    (hq : alookup st.message_queues aid = some q)
    (hcs : alookup st.sse_connections aid = some cs) :
    alookup (send_message now { sender_id := some sid, content := some c }
        st).2.message_queues aid = some (q ++ [mkMessage sid c now])
    ∧ alookup (send_message now { sender_id := some sid, content := some c }
        st).2.sse_connections aid = some (cs.map (pushMsg (mkMessage sid c now)))
    ∧ alookup (events_attach t aid cid
        (send_message now { sender_id := some sid, content := some c }
          st).2).message_queues aid = some []
    ∧ alookup (events_attach t aid cid
        (send_message now { sender_id := some sid, content := some c }
          st).2).sse_connections aid
      = some (cs.map (pushMsg (mkMessage sid c now))
          ++ [{ cid := cid, received := q ++ [mkMessage sid c now] }]) := by
  have h := C2_sender_excluded now st sid c hsid hc hnd
  have hq2 := h.2.2.2.1 aid q hne hq
  have hcs2 := h.2.2.2.2 aid cs hne (by simp [hq]) hcs
  have hatt := events_attach_present t aid cid
    (send_message now { sender_id := some sid, content := some c } st).2
    (q ++ [mkMessage sid c now]) hq2
  refine ⟨hq2, hcs2, hatt.1, ?_⟩
  rw [hatt.2, hcs2]
  rfl

/-- Witness for C1 amended: B is live with one connection when A sends;
after a later attach B's new connection is handed the queued copy again. -/
theorem C1_amended_queue_and_deliver_witness :
    alookup (events_attach 9 "B" 1
        (send_message 5 { sender_id := some "A", content := some (PyVal.str "hi") }
          { message_queues := [("A", []), ("B", [])],
            sse_connections := [("A", []), ("B", [{ cid := 0, received := [] }])],
            agent_last_seen := [("A", 0), ("B", 0)] }).2).sse_connections "B"
      = some ([{ cid := 0, received := [] }].map (pushMsg (mkMessage "A" (PyVal.str "hi") 5))
          ++ [{ cid := 1, received := [] ++ [mkMessage "A" (PyVal.str "hi") 5] }]) :=
  (C1_amended_queue_and_deliver 5 9
    { message_queues := [("A", []), ("B", [])],
      sse_connections := [("A", []), ("B", [{ cid := 0, received := [] }])],
      agent_last_seen := [("A", 0), ("B", 0)] }
    "A" (PyVal.str "hi") "B" [] [{ cid := 0, received := [] }] 1
    (by decide) rfl (by decide) (by decide) rfl rfl).2.2.2

/-! ## Register lemmas -/

theorem register_agent_present (now : Int) (id : String) (st : ServerState)
    (hid : id ≠ "") (h : (alookup st.message_queues id).isSome = true) :
    register_agent now { agent_id := some id } st
      = (200, { st with agent_last_seen := upsert st.agent_last_seen id now }) := by
  simp [register_agent, hid, h]

theorem register_agent_new (now : Int) (id : String) (st : ServerState)
    (hid : id ≠ "") (h : (alookup st.message_queues id).isSome = false) :
    register_agent now { agent_id := some id } st
      = (200, { message_queues := st.message_queues ++ [(id, [])],
                sse_connections := st.sse_connections ++ [(id, [])],
                agent_last_seen := upsert st.agent_last_seen id now }) := by
  simp [register_agent, hid, h]

theorem register_agent_lastSeen (now : Int) (id : String) (st : ServerState)
    (hid : id ≠ "") :
    (register_agent now { agent_id := some id } st).2.agent_last_seen
      = upsert st.agent_last_seen id now := by
  by_cases h : (alookup st.message_queues id).isSome
  · rw [register_agent_present now id st hid h]
  · rw [register_agent_new now id st hid (by simpa using h)]

theorem register_agent_keys (now : Int) (id : String) (st : ServerState)
    (hid : id ≠ "") :
    keys (register_agent now { agent_id := some id } st).2.message_queues
      = if (alookup st.message_queues id).isSome then keys st.message_queues
        else keys st.message_queues ++ [id] := by
  by_cases h : (alookup st.message_queues id).isSome
  · rw [register_agent_present now id st hid h, if_pos h]
  · rw [register_agent_new now id st hid (by simpa using h), if_neg h]
    simp [keys]

theorem register_agent_nodup_mem (now : Int) (id : String) (st : ServerState)
    (hid : id ≠ "") (hnd : (keys st.message_queues).Nodup) :
    (keys (register_agent now { agent_id := some id } st).2.message_queues).Nodup
    ∧ id ∈ keys (register_agent now { agent_id := some id } st).2.message_queues := by
  rw [register_agent_keys now id st hid]
  by_cases h : (alookup st.message_queues id).isSome
  · rw [if_pos h]
    exact ⟨hnd, (mem_keys_iff_isSome _ _).mpr h⟩
  · rw [if_neg h]
    have hnm : id ∉ keys st.message_queues :=
      fun hm => h ((mem_keys_iff_isSome _ _).mp hm)
    constructor
    · rw [List.nodup_append]
      refine ⟨hnd, List.nodup_singleton id, fun a ha hb => ?_⟩
      have he : a = id := by simpa using hb
      exact hnm (he ▸ ha)
    · simp

theorem registerSeq_cons (id : String) (t : Int) (ts : List Int)
    (st : ServerState) :
    registerSeq id (t :: ts) st
      = registerSeq id ts (register_agent t { agent_id := some id } st).2 := by
  rfl

theorem registerSeq_nodup (id : String) (ts : List Int) (st : ServerState)
    (hid : id ≠ "") (hnd : (keys st.message_queues).Nodup) :
    (keys (registerSeq id ts st).message_queues).Nodup := by
  induction ts generalizing st with
  | nil => exact hnd
  | cons t ts ih =>
    rw [registerSeq_cons]
    exact ih _ (register_agent_nodup_mem t id st hid hnd).1

/-! ## Claim C5: register is idempotent -/

/-- C5: after any sequence of register(id) calls ending at time t, the
registry holds exactly one record for id (repeated registration creates no
second record and is not an error), the key list stays duplicate-free, and
the last registration's time is what lastSeen holds. -/
theorem C5_register_idempotent (id : String) (st : ServerState)
    (ts : List Int) (t : Int) (hid : id ≠ "")
    (hnd : (keys st.message_queues).Nodup) :
    (keys (registerSeq id (ts ++ [t]) st).message_queues).count id = 1
    ∧ (keys (registerSeq id (ts ++ [t]) st).message_queues).Nodup
    ∧ (register_agent t { agent_id := some id }
        (registerSeq id ts st)).1 = 200
    ∧ alookup (registerSeq id (ts ++ [t]) st).agent_last_seen id = some t := by
  have hm : registerSeq id (ts ++ [t]) st
      = (register_agent t { agent_id := some id } (registerSeq id ts st)).2 := by
    unfold registerSeq
    rw [List.foldl_append]
    rfl
  have hnd2 : (keys (registerSeq id ts st).message_queues).Nodup :=
    registerSeq_nodup id ts st hid hnd
  have hfin := register_agent_nodup_mem t id (registerSeq id ts st) hid hnd2
  have hcode : (register_agent t { agent_id := some id }
      (registerSeq id ts st)).1 = 200 := by
    by_cases h : (alookup (registerSeq id ts st).message_queues id).isSome
    · rw [register_agent_present t id _ hid h]
    · rw [register_agent_new t id _ hid (by simpa using h)]
  refine ⟨?_, hm ▸ hfin.1, hcode, ?_⟩
  · rw [hm]
    exact List.count_eq_one_of_mem hfin.1 hfin.2
  · rw [hm, register_agent_lastSeen t id _ hid]
    exact alookup_upsert_self _ _ _

/-- Witness for C5: three registrations of "1001" on the empty registry
leave exactly one record with lastSeen 3. -/
theorem C5_register_idempotent_witness :
    (keys (registerSeq "1001" ([1, 2] ++ [3])
        { message_queues := [], sse_connections := [],
          agent_last_seen := [] }).message_queues).count "1001" = 1
    ∧ alookup (registerSeq "1001" ([1, 2] ++ [3])
        { message_queues := [], sse_connections := [],
          agent_last_seen := [] }).agent_last_seen "1001" = some 3 := by
  have h := C5_register_idempotent "1001"
    { message_queues := [], sse_connections := [], agent_last_seen := [] }
    [1, 2] 3 (by decide) List.nodup_nil
  exact ⟨h.1, h.2.2.2⟩

/-! ## Claim C10: re-registration touches only lastSeen -/

/-- C10: registering an id that already has a record leaves message_queues
and sse_connections exactly as they were (the pending queue is not dropped,
open streams are not disturbed, and records of every other id are
untouched); the only change is that the id's lastSeen becomes now, the
other lastSeen entries being untouched as well. -/
theorem C10_register_existing_frame (now : Int) (id : String)
    (st : ServerState) (hid : id ≠ "")
    (h : (alookup st.message_queues id).isSome = true) :
    (register_agent now { agent_id := some id } st).1 = 200
    ∧ (register_agent now { agent_id := some id } st).2.message_queues
        = st.message_queues
    ∧ (register_agent now { agent_id := some id } st).2.sse_connections
        = st.sse_connections
    ∧ alookup (register_agent now { agent_id := some id } st).2.agent_last_seen
        id = some now
    ∧ ∀ j, j ≠ id →
        alookup (register_agent now { agent_id := some id } st).2.agent_last_seen j
          = alookup st.agent_last_seen j := by
  rw [register_agent_present now id st hid h]
  exact ⟨rfl, rfl, rfl, alookup_upsert_self _ _ _,
    fun j hj => alookup_upsert_ne _ _ _ _ hj⟩

/-- Witness for C10: re-registering "B" at time 9 keeps its queued message
and its live connection, and only bumps its lastSeen. -/
theorem C10_register_existing_frame_witness :
    (register_agent 9 { agent_id := some "B" }
      { message_queues := [("A", []), ("B", [mkMessage "A" (PyVal.str "hi") 5])],
        sse_connections := [("A", []), ("B", [{ cid := 0, received := [] }])],
        agent_last_seen := [("A", 1), ("B", 2)] }).2.message_queues
      = [("A", []), ("B", [mkMessage "A" (PyVal.str "hi") 5])]
    ∧ (register_agent 9 { agent_id := some "B" }
      { message_queues := [("A", []), ("B", [mkMessage "A" (PyVal.str "hi") 5])],
        sse_connections := [("A", []), ("B", [{ cid := 0, received := [] }])],
        agent_last_seen := [("A", 1), ("B", 2)] }).2.sse_connections
      = [("A", []), ("B", [{ cid := 0, received := [] }])]
    ∧ alookup (register_agent 9 { agent_id := some "B" }
      { message_queues := [("A", []), ("B", [mkMessage "A" (PyVal.str "hi") 5])],
        sse_connections := [("A", []), ("B", [{ cid := 0, received := [] }])],
        agent_last_seen := [("A", 1), ("B", 2)] }).2.agent_last_seen "B" = some 9
    ∧ alookup (register_agent 9 { agent_id := some "B" }
      { message_queues := [("A", []), ("B", [mkMessage "A" (PyVal.str "hi") 5])],
        sse_connections := [("A", []), ("B", [{ cid := 0, received := [] }])],
        agent_last_seen := [("A", 1), ("B", 2)] }).2.agent_last_seen "A" = some 1 := by
  have h := C10_register_existing_frame 9 "B"
    { message_queues := [("A", []), ("B", [mkMessage "A" (PyVal.str "hi") 5])],
      sse_connections := [("A", []), ("B", [{ cid := 0, received := [] }])],
      agent_last_seen := [("A", 1), ("B", 2)] }
    (by decide) rfl
  exact ⟨h.2.1, h.2.2.1, h.2.2.2.1,
    (h.2.2.2.2 "A" (by decide)).trans rfl⟩

/-! ## Idle-sweep lemmas -/

theorem alookup_mem {α : Type} (l : List (String × α)) (k : String) (v : α)
    (h : alookup l k = some v) : (k, v) ∈ l := by
  induction l with
  | nil => simp [alookup] at h
  | cons p rest ih =>
    obtain ⟨k1, v1⟩ := p
    by_cases hh : k1 = k
    · simp [alookup, hh] at h
      simp [hh, h]
    · simp [alookup, hh] at h
      exact List.mem_cons_of_mem _ (ih h)

theorem mem_keys_of_mem_keys_filter {α : Type} (l : List (String × α))
    (p : String × α → Bool) (k : String) (h : k ∈ keys (l.filter p)) :
    k ∈ keys l := by
  simp only [keys, List.mem_map] at h ⊢
  obtain ⟨q, hq, hk⟩ := h
  exact ⟨q, List.mem_of_mem_filter hq, hk⟩

theorem exists_of_mem_keys {α : Type} (l : List (String × α)) (k : String)
    (h : k ∈ keys l) : ∃ v, (k, v) ∈ l := by
  simp only [keys, List.mem_map] at h
  obtain ⟨q, hq, hk⟩ := h
  refine ⟨q.2, ?_⟩
  rw [← hk]
  simpa using hq

theorem mem_keys_cons {α : Type} (k k1 : String) (v : α)
    (rest : List (String × α)) :
    k ∈ keys ((k1, v) :: rest) ↔ k = k1 ∨ k ∈ keys rest := by
  simp [keys]

theorem mem_inactive_iff (l : List (String × Int)) (now : Int) (id : String)
    (t : Int) (hnd : (keys l).Nodup) (h : alookup l id = some t) :
    (id ∈ keys (l.filter (fun p => 300 < now - p.2))) ↔ 300 < now - t := by
  induction l with
  | nil => simp [alookup] at h
  | cons p rest ih =>
    obtain ⟨k1, v⟩ := p
    have hnd2 : (keys rest).Nodup := (List.nodup_cons.mp (by simpa [keys] using hnd)).2
    by_cases hh : k1 = id
    · have hv : v = t := by simpa [alookup, hh] using h
      subst hv
      subst hh
      have hnm : k1 ∉ keys rest := (List.nodup_cons.mp (by simpa [keys] using hnd)).1
      by_cases hp : 300 < now - v
      · simp [List.filter_cons, hp, keys]
      · have : k1 ∉ keys (rest.filter (fun p => 300 < now - p.2)) :=
          fun hm => hnm (mem_keys_of_mem_keys_filter _ _ _ hm)
        simp [List.filter_cons, hp, this]
    · have h2 : alookup rest id = some t := by simpa [alookup, hh] using h
      have hne2 : ¬ id = k1 := fun he => hh he.symm
      have hiff := ih hnd2 h2
      by_cases hp : 300 < now - v
      · rw [show ((k1, v) :: rest).filter (fun p => 300 < now - p.2)
            = (k1, v) :: rest.filter (fun p => 300 < now - p.2) by
          simp [List.filter_cons, hp]]
        rw [mem_keys_cons]
        simp only [hne2, false_or]
        exact hiff
      · rw [show ((k1, v) :: rest).filter (fun p => 300 < now - p.2)
            = rest.filter (fun p => 300 < now - p.2) by
          simp [List.filter_cons, hp]]
        exact hiff

theorem mem_keys_removeKeys {α : Type} (l : List (String × α))
    (ks : List String) (k : String) :
    k ∈ keys (removeKeys l ks) ↔ k ∈ keys l ∧ k ∉ ks := by
  induction l with
  | nil => simp [removeKeys, keys]
  | cons p rest ih =>
    obtain ⟨k1, v⟩ := p
    by_cases hk : k1 ∈ ks
    · rw [show removeKeys ((k1, v) :: rest) ks = removeKeys rest ks by
        simp [removeKeys, hk]]
      rw [ih, mem_keys_cons]
      constructor
      · exact fun hh => ⟨Or.inr hh.1, hh.2⟩
      · rintro ⟨hm | hm, hnm⟩
        · exact absurd (by rw [hm]; exact hk) hnm
        · exact ⟨hm, hnm⟩
    · rw [show removeKeys ((k1, v) :: rest) ks = (k1, v) :: removeKeys rest ks by
        simp [removeKeys, hk]]
      rw [mem_keys_cons, mem_keys_cons, ih]
      by_cases he : k = k1
      · subst he
        simp [hk]
      · simp [he]

/-! ## Claim C3: the idle sweep evicts exactly the stale records -/

/-- C3: at any sweep tick (reaper or the opportunistic sweep of
list_agents), a record with now - lastSeen > 300 is evicted: its timestamp,
queue and connection entries are all removed and every one of its live
connections is force-closed; a record with now - lastSeen <= 300 is left
exactly as it was; consequently every id returned by list_agents has
now - lastSeen <= 300 at the moment of the sweep. -/
theorem C3_idle_sweep (st : ServerState) (now : Int)
    (hnd : (keys st.agent_last_seen).Nodup)
    (hcov : ∀ p ∈ st.message_queues, (alookup st.agent_last_seen p.1).isSome) :
    (∀ id t, alookup st.agent_last_seen id = some t → 300 < now - t →
      alookup (cleanup_inactive_agents now st).1.agent_last_seen id = Option.none
      ∧ alookup (cleanup_inactive_agents now st).1.message_queues id = Option.none
      ∧ alookup (cleanup_inactive_agents now st).1.sse_connections id = Option.none
      ∧ ∀ cs, alookup st.sse_connections id = some cs →
          ∀ conn ∈ cs, conn.cid ∈ (cleanup_inactive_agents now st).2)
    ∧ (∀ id t, alookup st.agent_last_seen id = some t → now - t ≤ 300 →
      alookup (cleanup_inactive_agents now st).1.agent_last_seen id = some t
      ∧ alookup (cleanup_inactive_agents now st).1.message_queues id
          = alookup st.message_queues id
      ∧ alookup (cleanup_inactive_agents now st).1.sse_connections id
          = alookup st.sse_connections id)
    ∧ (∀ id, id ∈ (list_agents now st).1 →
        ∃ t, alookup st.agent_last_seen id = some t ∧ now - t ≤ 300) := by
  refine ⟨?_, ?_, ?_⟩
  · intro id t ht hstale
    have hin : id ∈ keys (st.agent_last_seen.filter (fun p => 300 < now - p.2)) :=
      (mem_inactive_iff st.agent_last_seen now id t hnd ht).mpr hstale
    refine ⟨alookup_removeKeys_mem _ _ _ hin,
            alookup_removeKeys_mem _ _ _ hin,
            alookup_removeKeys_mem _ _ _ hin, ?_⟩
    intro cs hcs conn hconn
    have hmem : (id, cs) ∈ st.sse_connections := alookup_mem _ _ _ hcs
    have hkept : (id, cs) ∈ st.sse_connections.filter
        (fun p => decide (p.1 ∈ keys (st.agent_last_seen.filter
          (fun p => 300 < now - p.2)))) :=
      List.mem_filter.mpr ⟨hmem, by simpa using hin⟩
    exact List.mem_flatMap.mpr ⟨(id, cs), hkept,
      List.mem_map.mpr ⟨conn, hconn, rfl⟩⟩
  · intro id t ht hfresh
    have hout : id ∉ keys (st.agent_last_seen.filter (fun p => 300 < now - p.2)) :=
      fun hm => absurd ((mem_inactive_iff st.agent_last_seen now id t hnd ht).mp hm)
        (by omega)
    exact ⟨(alookup_removeKeys_not_mem _ _ _ hout).trans ht,
           alookup_removeKeys_not_mem _ _ _ hout,
           alookup_removeKeys_not_mem _ _ _ hout⟩
  · intro id hid
    have hm := (mem_keys_removeKeys st.message_queues _ id).mp hid
    obtain ⟨q, hq⟩ := exists_of_mem_keys _ _ hm.1
    have hsome : (alookup st.agent_last_seen id).isSome := hcov (id, q) hq
    obtain ⟨t, ht⟩ := Option.isSome_iff_exists.mp hsome
    refine ⟨t, ht, ?_⟩
    by_contra hgt
    push_neg at hgt
    exact hm.2 ((mem_inactive_iff st.agent_last_seen now id t hnd ht).mpr hgt)

/-- Witness for C3 at now = 1000: B (lastSeen 0) is evicted and its
connection 5 force-closed; A (lastSeen 900) is untouched and is the only id
list_agents returns. -/
theorem C3_idle_sweep_witness :
    alookup (cleanup_inactive_agents 1000
      { message_queues := [("A", []), ("B", [])],
        sse_connections := [("A", []), ("B", [{ cid := 5, received := [] }])],
        agent_last_seen := [("A", 900), ("B", 0)] }).1.agent_last_seen "B"
      = Option.none
    ∧ (5 : Nat) ∈ (cleanup_inactive_agents 1000
      { message_queues := [("A", []), ("B", [])],
        sse_connections := [("A", []), ("B", [{ cid := 5, received := [] }])],
        agent_last_seen := [("A", 900), ("B", 0)] }).2
    ∧ alookup (cleanup_inactive_agents 1000
      { message_queues := [("A", []), ("B", [])],
        sse_connections := [("A", []), ("B", [{ cid := 5, received := [] }])],
        agent_last_seen := [("A", 900), ("B", 0)] }).1.agent_last_seen "A"
      = some 900
    ∧ (∃ t, alookup (ServerState.agent_last_seen
        { message_queues := [("A", []), ("B", [])],
          sse_connections := [("A", []), ("B", [{ cid := 5, received := [] }])],
          agent_last_seen := [("A", 900), ("B", 0)] }) "A" = some t
        ∧ 1000 - t ≤ 300) := by
  have h := C3_idle_sweep
    { message_queues := [("A", []), ("B", [])],
      sse_connections := [("A", []), ("B", [{ cid := 5, received := [] }])],
      agent_last_seen := [("A", 900), ("B", 0)] }
    1000 (by decide) (by decide)
  have hB := h.1 "B" 0 rfl (by decide)
  have hA := h.2.1 "A" 900 rfl (by decide)
  refine ⟨hB.1, ?_, hA.1, h.2.2 "A" (by decide)⟩
  exact hB.2.2.2 [{ cid := 5, received := [] }] rfl
    { cid := 5, received := [] } (by simp)

/-! ## Trace lemmas for lastSeen monotonicity -/

theorem mem_adjust {α : Type} (l : List (String × α)) (k : String)
    (f : α → α) (p : String × α) (h : p ∈ adjust l k f) :
    p ∈ l ∨ ∃ q, q ∈ l ∧ p = (q.1, f q.2) := by
  induction l with
  | nil => simp [adjust] at h
  | cons q0 rest ih =>
    obtain ⟨k1, v1⟩ := q0
    by_cases hh : k1 = k
    · rw [show adjust ((k1, v1) :: rest) k f = (k1, f v1) :: adjust rest k f by
        simp [adjust, hh]] at h
      rcases List.mem_cons.mp h with he | hm
      · exact Or.inr ⟨(k1, v1), List.mem_cons_self _ _, he⟩
      · rcases ih hm with h1 | ⟨q, hq, he⟩
        · exact Or.inl (List.mem_cons_of_mem _ h1)
        · exact Or.inr ⟨q, List.mem_cons_of_mem _ hq, he⟩
    · rw [show adjust ((k1, v1) :: rest) k f = (k1, v1) :: adjust rest k f by
        simp [adjust, hh]] at h
      rcases List.mem_cons.mp h with he | hm
      · exact Or.inl (he ▸ List.mem_cons_self _ _)
      · rcases ih hm with h1 | ⟨q, hq, he⟩
        · exact Or.inl (List.mem_cons_of_mem _ h1)
        · exact Or.inr ⟨q, List.mem_cons_of_mem _ hq, he⟩

theorem mem_upsert {α : Type} (l : List (String × α)) (k : String) (v : α)
    (p : String × α) (h : p ∈ upsert l k v) : p.2 = v ∨ p ∈ l := by
  unfold upsert at h
  by_cases hs : (alookup l k).isSome
  · rw [if_pos hs] at h
    rcases mem_adjust _ _ _ _ h with h1 | ⟨q, _, he⟩
    · exact Or.inr h1
    · exact Or.inl (by rw [he])
  · rw [if_neg hs] at h
    rcases List.mem_append.mp h with h1 | h1
    · exact Or.inr h1
    · exact Or.inl (by rw [List.mem_singleton.mp h1])

theorem mem_removeKeys_subset {α : Type} (l : List (String × α))
    (ks : List String) (p : String × α) (h : p ∈ removeKeys l ks) : p ∈ l := by
  induction l with
  | nil => simp [removeKeys] at h
  | cons q rest ih =>
    obtain ⟨k1, v1⟩ := q
    by_cases hk : k1 ∈ ks
    · rw [show removeKeys ((k1, v1) :: rest) ks = removeKeys rest ks by
        simp [removeKeys, hk]] at h
      exact List.mem_cons_of_mem _ (ih h)
    · rw [show removeKeys ((k1, v1) :: rest) ks = (k1, v1) :: removeKeys rest ks by
        simp [removeKeys, hk]] at h
      rcases List.mem_cons.mp h with he | hm
      · exact he ▸ List.mem_cons_self _ _
      · exact List.mem_cons_of_mem _ (ih hm)

theorem step_lastSeen_shape (now : Int) (op : Op) (st : ServerState) :
    (step now op st).agent_last_seen = st.agent_last_seen
    ∨ (∃ k, (step now op st).agent_last_seen = upsert st.agent_last_seen k now)
    ∨ (∃ ks, (step now op st).agent_last_seen
        = removeKeys st.agent_last_seen ks) := by
  cases op with
  | register req =>
    obtain ⟨a⟩ := req
    cases a with
    | none => exact Or.inl rfl
    | some aid =>
      by_cases ha : aid = ""
      · left
        simp [step, register_agent, ha]
      · right
        left
        exact ⟨aid, by rw [show step now (Op.register { agent_id := some aid }) st
          = (register_agent now { agent_id := some aid } st).2 from rfl,
          register_agent_lastSeen now aid st ha]⟩
  | send req =>
    obtain ⟨s, c⟩ := req
    cases s with
    | none => exact Or.inl rfl
    | some sid =>
      cases c with
      | none => exact Or.inl rfl
      | some cv =>
        by_cases hsid : sid = ""
        · left
          simp [step, send_message, hsid]
        · by_cases hc : truthy cv = true
          · right
            left
            refine ⟨sid, ?_⟩
            rw [show step now (Op.send { sender_id := some sid, content := some cv }) st
              = (send_message now { sender_id := some sid, content := some cv } st).2
              from rfl, send_message_valid now st sid cv hsid hc]
            exact foldl_broadcast_lastSeen _ _ _ _
          · left
            simp [step, send_message, hsid, hc]
  | attach aid cid =>
    right
    left
    refine ⟨aid, ?_⟩
    unfold step events_attach
    by_cases h : (alookup st.message_queues aid).isSome <;> simp [h]
  | keepalive aid => exact Or.inr (Or.inl ⟨aid, rfl⟩)
  | sweep =>
    exact Or.inr (Or.inr ⟨keys (st.agent_last_seen.filter
      (fun p => 300 < now - p.2)), rfl⟩)

theorem lastSeen_step_mono (now : Int) (op : Op) (st : ServerState)
    (id : String) (v v1 : Int) (hb : boundedBy st now)
    (h : alookup st.agent_last_seen id = some v)
    (h1 : alookup (step now op st).agent_last_seen id = some v1) : v ≤ v1 := by
  rcases step_lastSeen_shape now op st with hs | ⟨k, hs⟩ | ⟨ks, hs⟩
  · rw [hs, h] at h1
    injection h1 with h1
    omega
  · rw [hs] at h1
    by_cases hk : id = k
    · subst hk
      rw [alookup_upsert_self] at h1
      injection h1 with h1
      have := hb (id, v) (alookup_mem _ _ _ h)
      simpa [← h1] using this
    · rw [alookup_upsert_ne _ _ _ _ hk, h] at h1
      injection h1 with h1
      omega
  · rw [hs] at h1
    by_cases hk : id ∈ ks
    · rw [alookup_removeKeys_mem _ _ _ hk] at h1
      cases h1
    · rw [alookup_removeKeys_not_mem _ _ _ hk, h] at h1
      injection h1 with h1
      omega

theorem lastSeen_step_new (now : Int) (op : Op) (st : ServerState)
    (id : String) (v1 : Int)
    (h : alookup st.agent_last_seen id = Option.none)
    (h1 : alookup (step now op st).agent_last_seen id = some v1) : v1 = now := by
  rcases step_lastSeen_shape now op st with hs | ⟨k, hs⟩ | ⟨ks, hs⟩
  · rw [hs, h] at h1
    cases h1
  · rw [hs] at h1
    by_cases hk : id = k
    · subst hk
      rw [alookup_upsert_self] at h1
      injection h1 with h1
      omega
    · rw [alookup_upsert_ne _ _ _ _ hk, h] at h1
      cases h1
  · rw [hs] at h1
    by_cases hk : id ∈ ks
    · rw [alookup_removeKeys_mem _ _ _ hk] at h1
      cases h1
    · rw [alookup_removeKeys_not_mem _ _ _ hk, h] at h1
      cases h1

theorem boundedBy_step (now : Int) (op : Op) (st : ServerState)
    (hb : boundedBy st now) : boundedBy (step now op st) now := by
  intro p hp
  rcases step_lastSeen_shape now op st with hs | ⟨k, hs⟩ | ⟨ks, hs⟩ <;>
    rw [hs] at hp
  · exact hb p hp
  · rcases mem_upsert _ _ _ _ hp with he | hm
    · omega
    · exact hb p hm
  · exact hb p (mem_removeKeys_subset _ _ _ hp)

theorem boundedBy_mono (st : ServerState) (t u : Int) (h : boundedBy st t)
    (htu : t ≤ u) : boundedBy st u :=
  fun p hp => le_trans (h p hp) htu

theorem run_lastSeen_lower (id : String) (trace : List (Int × Op)) :
    ∀ st t0, boundedBy st t0 → chron t0 trace →
    ∀ v1, alookup (run st trace).agent_last_seen id = some v1 →
    (∀ v0, alookup st.agent_last_seen id = some v0 → v0 ≤ v1)
    ∧ (alookup st.agent_last_seen id = Option.none → t0 ≤ v1) := by
  induction trace with
  | nil =>
    intro st t0 _ _ v1 h1
    have h2 : alookup st.agent_last_seen id = some v1 := h1
    refine ⟨fun v0 h0 => ?_, fun h0 => ?_⟩
    · rw [h0] at h2
      injection h2 with h2
      omega
    · rw [h0] at h2
      cases h2
  | cons p rest ih =>
    obtain ⟨t, op⟩ := p
    intro st t0 hb hc v1 h1
    obtain ⟨ht0t, hcrest⟩ := hc
    have hbt : boundedBy st t := boundedBy_mono st t0 t hb ht0t
    have hbt2 : boundedBy (step t op st) t := boundedBy_step t op st hbt
    have hrun : run st ((t, op) :: rest) = run (step t op st) rest := rfl
    rw [hrun] at h1
    have IH := ih (step t op st) t hbt2 hcrest v1 h1
    refine ⟨fun v0 h0 => ?_, fun h0 => ?_⟩
    · cases hmid : alookup (step t op st).agent_last_seen id with
      | none =>
        have hle : t ≤ v1 := IH.2 hmid
        have hv0 : v0 ≤ t0 := hb (id, v0) (alookup_mem _ _ _ h0)
        omega
      | some vmid =>
        exact le_trans (lastSeen_step_mono t op st id v0 vmid hbt h0 hmid)
          (IH.1 vmid hmid)
    · cases hmid : alookup (step t op st).agent_last_seen id with
      | none => exact le_trans ht0t (IH.2 hmid)
      | some vmid =>
        have he : vmid = t := lastSeen_step_new t op st id vmid h0 hmid
        have := IH.1 vmid hmid
        omega

/-! ## Claim C8: lastSeen is monotonically non-decreasing -/

/-- C8: along any trace of relay operations run under a non-decreasing
clock (chron), starting from a state whose stored timestamps do not exceed
the starting clock, the lastSeen value recorded for an id never decreases:
every write (registration, broadcast-send, subscribe attach, keepalive
tick) stores the current time, which is at least the previously stored
value. -/
theorem C8_lastSeen_monotone (trace : List (Int × Op)) (st : ServerState)
    (t0 : Int) (id : String) (v0 v1 : Int)
    (hb : boundedBy st t0) (hc : chron t0 trace)
    (h0 : alookup st.agent_last_seen id = some v0)
    (h1 : alookup (run st trace).agent_last_seen id = some v1) : v0 ≤ v1 :=
  (run_lastSeen_lower id trace st t0 hb hc v1 h1).1 v0 h0

/-- Witness for C8: agent A starts with lastSeen 0; after a keepalive at
time 1 and a broadcast from A at time 2, its stored value is 2 and the
theorem instantiates to 0 <= 2. -/
theorem C8_lastSeen_monotone_witness :
    alookup (run
      { message_queues := [("A", []), ("B", [])],
        sse_connections := [("A", []), ("B", [])],
        agent_last_seen := [("A", 0), ("B", 0)] }
      [(1, Op.keepalive "A"),
       (2, Op.send { sender_id := some "A", content := some (PyVal.str "x") })]).agent_last_seen "A"
      = some 2
    ∧ (0 : Int) ≤ 2 := by
  refine ⟨rfl, ?_⟩
  exact C8_lastSeen_monotone
    [(1, Op.keepalive "A"),
     (2, Op.send { sender_id := some "A", content := some (PyVal.str "x") })]
    { message_queues := [("A", []), ("B", [])],
      sse_connections := [("A", []), ("B", [])],
      agent_last_seen := [("A", 0), ("B", 0)] }
    0 "A" 0 2 (by intro p hp; simp at hp; rcases hp with h | h <;> simp [h])
    ⟨by omega, by omega, trivial⟩ rfl rfl

/-! ## Claim C7: line classification and dispatch on the client -/

/-- C7: for every line the listening loop reads: a keepalive marker line is
discarded with no handler call; a data line whose stripped payload passes
the emptiness guards and decodes is dispatched synchronously to every
registered handler in declaration order; and a data line whose payload
fails to decode produces no calls while the lines after it are still
processed — a decode failure never terminates the loop or skips later
lines. -/
theorem C7_line_dispatch (decode : PyStr → Option PyVal) (handlers : List Nat)
    (line : PyStr) (rest : List PyStr) (v : PyVal) :
    (pyStartsWith line (": ping").data = true →
      processLine decode handlers line = []
      ∧ processLines decode handlers (line :: rest)
        = processLines decode handlers rest)
    ∧ (pyStartsWith line (": ping").data = false →
       pyStartsWith line ("data: ").data = true →
       (pyStrip (line.drop 6)).isEmpty = false →
       (pyStrip (pyStrip (line.drop 6))).isEmpty = false →
       decode (pyStrip (line.drop 6)) = some v →
       processLine decode handlers line = handlers.map (fun h => (h, v))
       ∧ processLines decode handlers (line :: rest)
         = handlers.map (fun h => (h, v)) ++ processLines decode handlers rest)
    ∧ (decode (pyStrip (line.drop 6)) = Option.none →
       processLine decode handlers line = []
       ∧ processLines decode handlers (line :: rest)
         = processLines decode handlers rest) := by
  refine ⟨fun hping => ?_, fun hping hdata h1 h2 hdec => ?_, fun hdec => ?_⟩
  · have hl : processLine decode handlers line = [] := by
      simp [processLine, hping]
    exact ⟨hl, by simp [processLines, hl]⟩
  · have hl : processLine decode handlers line
        = handlers.map (fun h => (h, v)) := by
      simp [processLine, hping, hdata, processSseEvent, h1, h2, hdec]
    exact ⟨hl, by simp [processLines, hl]⟩
  · have hl : processLine decode handlers line = [] := by
      by_cases hping : pyStartsWith line (": ping").data = true
      · simp [processLine, hping]
      · by_cases hdata : pyStartsWith line ("data: ").data = true
        · simp only [processLine, hping, hdata, if_true, if_false,
            Bool.false_eq_true, processSseEvent, hdec]
          split <;> rfl
        · simp [processLine, hping, hdata]
    exact ⟨hl, by simp [processLines, hl]⟩

/-- Witness for C7 with sampleDecode and handlers 0, 1: the good data line
dispatches to both handlers in order, the ping line dispatches nothing, and
a stream holding a bad data line followed by the good one still delivers
the good line's calls. -/
theorem C7_line_dispatch_witness :
    processLine sampleDecode [0, 1] ("data: 7").data
      = [(0, PyVal.int 7), (1, PyVal.int 7)]
    ∧ processLine sampleDecode [0, 1] (": ping").data = []
    ∧ processLines sampleDecode [0, 1] [("data: x").data, ("data: 7").data]
      = [(0, PyVal.int 7), (1, PyVal.int 7)] := by
  have hgood := (C7_line_dispatch sampleDecode [0, 1] ("data: 7").data []
    (PyVal.int 7)).2.1 (by decide) (by decide) (by decide) (by decide) rfl
  have hping := (C7_line_dispatch sampleDecode [0, 1] (": ping").data []
    (PyVal.int 7)).1 (by decide)
  have hbad := (C7_line_dispatch sampleDecode [0, 1] ("data: x").data
    [("data: 7").data] (PyVal.int 7)).2.2 rfl
  refine ⟨?_, hping.1, ?_⟩
  · rw [hgood.1]
    rfl
  · rw [hbad.2, hgood.2]
    rfl

end Aether
